import Mathlib

/-!
Verification of the PicoUnits core (`src/picounits/core`): a shallow
embedding, in Lean, of the `Dimension` / `Unit` algebra
(`core/dimensions.py`, `core/unit.py`), the `Packet` hierarchy with its
`Factory` dispatch (`core/quantities/factory.py`, `packet.py`,
`scalars/types/real.py`, `scalars/types/complex.py`,
`vectors/vector.py`), and the pure operator-logic modules
(`core/quantities/scalars/methods/arithmetic.py`,
`core/quantities/scalars/methods/transcendental.py`).

Conventions of the embedding:
* Python `float` payloads are modelled as exact rationals (`ℚ`); the
  claims under study are about control flow, unit algebra and exact
  integer exponents, not floating-point rounding.
* Every Python `raise` site is modelled as an `Except.error` carrying a
  `PyErr` tag that names the raise site; the Python exception class and
  message text are recorded in the tag's doc comment.
* Mutation in `__init__`/`__post_init__` is modelled by returning the
  canonicalized value.
-/

namespace PicoUnits

/-- Error tags, one per `raise` site of the embedded code. -/
inductive PyErr
  /-- Tag for `Dimension.__post_init__`: `TypeError` "Dimension exponent must be int". -/
  | dimExponentTypeError
  /-- Tag for `Dimension.__post_init__`: `ValueError` "Exponent ... exceeded limit". -/
  | exponentLimit
  /-- Tag for `Unit._duplicated_bases_check`: `ValueError` "Cannot define a unit with duplicated bases". -/
  | duplicateBase
  /-- Tag for `Unit.__pow__` final branch: `TypeError` "Exponent must be int or float". -/
  | unitPowExponentTypeError
  /-- Tag for `Packet.unit_check`: `ValueError` "Units are not the same" (the spec's `DimensionMismatch`). -/
  | dimensionMismatch
  /-- Tag for `Factory.create` fallback: `TypeError` "No Packet for this value type". -/
  | noPacketForType
  /-- Tag for `power_logic` gate: `TypeError` "A unit cannot be raised to the power of a unit". -/
  | powBaseNotDimensionless
  /-- Tag for `power_logic` zero branch: `TypeError` "Factory() takes no arguments"
      (the code instantiates the `Factory` class instead of calling `Factory.create`). -/
  | factoryClassCall
  /-- Tag for `true_division_logic`: `ValueError` "True Division failed due to division by zero". -/
  | divisionByZero
  /-- Attribute lookup `Unit.dimensionless` fails: `AttributeError`
      (class `Unit` in `core/unit.py` defines no such classmethod). -/
  | attributeError
  /-- Tag for `_valid_input_for_inverse`: `ValueError` "requires input in range [-1, 1]". -/
  | inverseDomain
  /-- Tag for `_valid_input_for_logarithms`: `ValueError` "requires magnitude > 0" / bad base. -/
  | logDomain
  /-- Tag for `acot_logic`: `ZeroDivisionError` "requires q != 0". -/
  | acotZero
  /-- Tag for `ComplexPacket._raise_ordering_error`: `TypeError` "Cannot order complex quantities"
      (the spec's `UnorderableError`). -/
  | complexUnorderable
  /-- Tag for `VectorPacket._raise_ordering_error`: `TypeError` "Cannot order vector quantities"
      (the spec's `UnorderableError`). -/
  | vectorUnorderable
deriving DecidableEq, Repr

/-- Embeds `FBase` enum of `core/dimensions.py`: the seven SI bases plus dimensionless. -/
inductive FBase
  | time | length | mass | current | thermal | amount | luminosity | dimensionless
deriving DecidableEq, Repr, Fintype

/-- Embeds `FBase.order` under the default configuration (`_ORDER` of `core/dimensions.py`,
identical to `DEFAULT_ORDER` of `configuration/picounits.py`). -/
def FBase.order : FBase → Nat
  | .mass => 0
  | .length => 1
  | .time => 2
  | .current => 3
  | .thermal => 4
  | .amount => 5
  | .luminosity => 6
  | .dimensionless => 7

/-- Embeds `FBase.symbol` under the default configuration (`_SIBASE_SYMBOLS`). -/
def FBase.symbol : FBase → String
  | .time => "s"
  | .length => "m"
  | .mass => "kg"
  | .current => "A"
  | .thermal => "K"
  | .amount => "mol"
  | .luminosity => "cd"
  | .dimensionless => "∅"

/-- A Python number as passed around at runtime: an `int` or a `float`.
Floats are modelled as exact rationals. -/
inductive PyNum
  | int (n : Int)
  | float (q : ℚ)
deriving DecidableEq, Repr

/-- The `Dimension` frozen dataclass of `core/dimensions.py`: a base and a
signed integer exponent, already canonicalized by `__post_init__`. -/
structure Dimension where
  base : FBase
  exponent : Int
deriving DecidableEq, Repr

/-- Embeds `MAX_EXPONENT` from `configuration/picounits.py`. -/
def MAX_EXPONENT : Int := 10

/-- Embeds `Dimension.__post_init__`: rejects a non-`int` exponent (`TypeError`),
rejects `|exponent| > MAX_EXPONENT` (`ValueError`), maps exponent `0` to the
dimensionless dimension, and forces exponent `1` on a dimensionless base. -/
def Dimension.construct (b : FBase) (e : PyNum) : Except PyErr Dimension :=
  match e with
  | .float _ => .error .dimExponentTypeError
  | .int n =>
    if MAX_EXPONENT < |n| then .error .exponentLimit
    else if n = 0 then .ok ⟨.dimensionless, 1⟩
    else if b = .dimensionless then .ok ⟨.dimensionless, 1⟩
    else .ok ⟨b, n⟩

/-- Embeds `Dimension.dimensionless()` classmethod. -/
def Dimension.dimensionlessDim : Dimension := ⟨.dimensionless, 1⟩

/-- Embeds `Dimension.name`: base symbol, with a superscript exponent when it is not 1.
The superscript digits are modelled by the plain decimal digits; the Unicode
translation table is a bijective renaming that does not affect any claim. -/
def Dimension.name (d : Dimension) : String :=
  if d.exponent = 1 then d.base.symbol else d.base.symbol ++ toString d.exponent

/-- The `Unit` class of `core/unit.py`: the `dimensions` list after
`__init__` has run (canonicalized: dimensionless members stripped when more
than one member, duplicate bases rejected, sorted by `FBase.order`). -/
structure Unit where
  dims : List Dimension
deriving DecidableEq, Repr

/-- Comparison used by `Unit._sort_order` (`key=lambda d: d.base.order`). -/
def dimLE (a b : Dimension) : Prop := a.base.order ≤ b.base.order

instance : DecidableRel dimLE := fun a b => Nat.decLe a.base.order b.base.order

/-- Embeds `Unit._sort_order`: stable sort of the dimension list by `base.order`. -/
def sortDims (l : List Dimension) : List Dimension := l.insertionSort dimLE

/-- Embeds `Unit.__init__`: default to `[Dimension.dimensionless()]` on no arguments,
strip dimensionless members when there is more than one member
(`_remove_dimensionless`), reject duplicated bases
(`_duplicated_bases_check`), sort canonically (`_sort_order`). -/
def Unit.construct (input : List Dimension) : Except PyErr Unit :=
  let ds := if input.isEmpty then [Dimension.dimensionlessDim] else input
  let ds2 := if ds.length = 1 then ds else ds.filter (fun d => d ≠ Dimension.dimensionlessDim)
  if (ds2.map Dimension.base).Nodup then .ok ⟨sortDims ds2⟩ else .error .duplicateBase

/-- Embeds `Unit.length` property: number of members of the dimension list. -/
def Unit.length (u : Unit) : Nat := u.dims.length

/-- Embeds `Unit.name` property: the member names joined by `·`. -/
def Unit.name (u : Unit) : String := String.intercalate "·" (u.dims.map Dimension.name)

/-- The value hashed by `Unit.__hash__`: the frozenset of
`(base, exponent)` pairs. Python's integer hash of that frozenset is
modelled by the frozenset itself. -/
def Unit.hashKey (u : Unit) : Finset (FBase × Int) :=
  (u.dims.map (fun d => (d.base, d.exponent))).toFinset

/-- Embeds `Unit.__eq__`: equal lengths and equal hashes. -/
def Unit.eqb (u v : Unit) : Bool :=
  u.dims.length == v.dims.length && u.hashKey == v.hashKey

/-- Embeds `Unit()`, the dimensionless unit (also the `DIMENSIONLESS` constant of
`constants.py`, built as `Unit(Dimension(base=FBase.DIMENSIONLESS))`). -/
def DIMENSIONLESS : Unit := ⟨[Dimension.dimensionlessDim]⟩

/-- Embeds `LENGTH` constant of `constants.py`. -/
def LENGTH : Unit := ⟨[⟨.length, 1⟩]⟩

/-- Embeds `TIME` constant of `constants.py`. -/
def TIME : Unit := ⟨[⟨.time, 1⟩]⟩

/-- Embeds `MASS` constant of `constants.py`. -/
def MASS : Unit := ⟨[⟨.mass, 1⟩]⟩

/-- One step of the dict updates in `Unit._dimensional_analysis`: add
`e` to the entry of `b`, or append a new entry. Python dicts preserve
insertion order, so the dict is an association list. -/
def dictAdd (l : List (FBase × Int)) (b : FBase) (e : Int) : List (FBase × Int) :=
  if l.any (fun p => p.1 = b) then
    l.map (fun p => if p.1 = b then (p.1, p.2 + e) else p)
  else l ++ [(b, e)]

/-- The dict comprehension `{dim.base: dim.exponent for dim in self.dimensions}`:
later entries overwrite earlier ones with the same key. -/
def dictOfDims (ds : List Dimension) : List (FBase × Int) :=
  ds.foldl
    (fun l d =>
      if l.any (fun p => p.1 = d.base) then
        l.map (fun p => if p.1 = d.base then (p.1, d.exponent) else p)
      else l ++ [(d.base, d.exponent)])
    []

/-- The loop that rebuilds a dimension list, aborting on the first failing
`Dimension.construct` (a Python `for` loop whose body may raise). -/
def buildList {β : Type} (f : β → Except PyErr Dimension) : List β → Except PyErr (List Dimension)
  | [] => .ok []
  | x :: t => do
    let d ← f x
    let rest ← buildList f t
    .ok (d :: rest)

/-- Embeds `Unit._dimensional_analysis`: merge the per-base exponent dicts (adding
when multiplying, subtracting when dividing), drop zero exponents,
reconstruct (each `Dimension(base, exponent)` re-validates), and fall back
to `Unit()` when everything cancelled. -/
def Unit.dimensional_analysis (u1 u2 : Unit) (division : Bool) : Except PyErr Unit := do
  let combined :=
    u2.dims.foldl
      (fun l d => dictAdd l d.base (if division then -d.exponent else d.exponent))
      (dictOfDims u1.dims)
  let entries := combined.filter (fun p => p.2 ≠ 0)
  let newDims ← buildList (fun p => Dimension.construct p.1 (.int p.2)) entries
  if newDims.isEmpty then Unit.construct [] else Unit.construct newDims

/-- Embeds `Unit.__mul__` on a `Unit` argument. -/
def Unit.mul (u1 u2 : Unit) : Except PyErr Unit := Unit.dimensional_analysis u1 u2 false

/-- Embeds `Unit.__truediv__` on a `Unit` argument. -/
def Unit.div (u1 u2 : Unit) : Except PyErr Unit := Unit.dimensional_analysis u1 u2 true

/-- Python `dim.exponent * other` inside `Unit.__pow__`: `int * int` is an
`int`, `int * float` is a `float`. -/
def mulExp (e : Int) : PyNum → PyNum
  | .int m => .int (e * m)
  | .float q => .float (e * q)

/-- Embeds `Unit.__pow__` with an `int` or `float` exponent: rebuild every member as
`Dimension(dim.base, dim.exponent * other)` (which re-validates, so a float
exponent raises `TypeError` inside `Dimension.__post_init__`), then
re-run the `Unit` constructor. -/
def Unit.powU (u : Unit) (n : PyNum) : Except PyErr Unit := do
  let newDims ← buildList (fun d => Dimension.construct d.base (mulExp d.exponent n)) u.dims
  Unit.construct newDims

/-- Total exponent recorded for base `b` in a dimension list (0 when the
base is absent; for a canonical list this is the exponent of the unique
member with that base). -/
def listExp (l : List Dimension) (b : FBase) : Int :=
  ((l.filter (fun d => d.base = b)).map Dimension.exponent).sum

/-- Total exponent recorded for base `b` in the dimension list of `u`. -/
def Unit.expOf (u : Unit) (b : FBase) : Int := listExp u.dims b

/-- A raw Python payload as it reaches `Factory.create`: the numeric types,
plus representative non-numeric types (sequences, strings, `None`).
Floats and the components of complex numbers are modelled as exact
rationals. -/
inductive PyValue
  | int (n : Int)
  | float (q : ℚ)
  | complex (re im : ℚ)
  | list (xs : List ℚ)
  | str (s : String)
  | none
deriving DecidableEq, Repr

/-- Python numeric addition with its promotion rules (`int + int` is `int`,
mixing in a `float` gives `float`, mixing in a `complex` gives `complex`);
`Option.none` for unsupported operand types. -/
def pyAdd : PyValue → PyValue → Option PyValue
  | .int a, .int b => some (.int (a + b))
  | .int a, .float b => some (.float (a + b))
  | .float a, .int b => some (.float (a + b))
  | .float a, .float b => some (.float (a + b))
  | .int a, .complex re im => some (.complex (a + re) im)
  | .complex re im, .int a => some (.complex (re + a) im)
  | .float a, .complex re im => some (.complex (a + re) im)
  | .complex re im, .float a => some (.complex (re + a) im)
  | .complex a b, .complex c d => some (.complex (a + c) (b + d))
  | _, _ => Option.none

/-- Python numeric subtraction with the same promotion rules as `pyAdd`. -/
def pySub : PyValue → PyValue → Option PyValue
  | .int a, .int b => some (.int (a - b))
  | .int a, .float b => some (.float (a - b))
  | .float a, .int b => some (.float (a - b))
  | .float a, .float b => some (.float (a - b))
  | .int a, .complex re im => some (.complex (a - re) (-im))
  | .complex re im, .int a => some (.complex (re - a) im)
  | .float a, .complex re im => some (.complex (a - re) (-im))
  | .complex re im, .float a => some (.complex (re - a) im)
  | .complex a b, .complex c d => some (.complex (a - c) (b - d))
  | _, _ => Option.none

/-- Whether the payload is one of the three numeric types. -/
def PyValue.isNumeric : PyValue → Bool
  | .int _ => true
  | .float _ => true
  | .complex _ _ => true
  | _ => false

/-- Python `value == 0` on a numeric payload. -/
def PyValue.isZero : PyValue → Bool
  | .int n => n = 0
  | .float q => q = 0
  | .complex re im => re = 0 && im = 0
  | _ => false

/-- Python `value * 10 ** p` (the prefix rescaling in the packet
`__post_init__` methods): an `int` times a non-negative power of ten stays
`int`, every other combination is a `float`/`complex`. -/
def scaleVal (v : PyValue) (p : Int) : PyValue :=
  if p = 0 then v
  else
    match v with
    | .int n => if 0 ≤ p then .int (n * 10 ^ p.toNat) else .float (n * (10 : ℚ) ^ p)
    | .float q => .float (q * (10 : ℚ) ^ p)
    | .complex re im => .complex (re * (10 : ℚ) ^ p) (im * (10 : ℚ) ^ p)
    | v' => v'

/-- A concrete `Packet` (`core/quantities/packet.py`): the payload together
with its `Unit`. The concrete subclass (`RealPacket`, `ComplexPacket`) is
determined by the payload's type; the construction-only prefix has already
been consumed into `value`. -/
structure Packet where
  value : PyValue
  unit : Unit
deriving DecidableEq, Repr

/-- Embeds `Factory.create(value, unit, prefix)` of `core/quantities/factory.py`:
dispatch on the runtime type of `value` — `complex` payloads build a
`ComplexPacket`, `float`/`int` payloads build a `RealPacket` (each
`__post_init__` rescales the payload by `10 ** pfx` down to BASE), and
every other payload type raises `TypeError` ("No Packet for this value
type"). `pfx` is the decade exponent of the supplied `PrefixScale`
(`PrefixScale.BASE` is 0). -/
def Factory.create (value : PyValue) (unit : Unit) (pfx : Int) : Except PyErr Packet :=
  match value with
  | .complex re im => .ok ⟨scaleVal (.complex re im) pfx, unit⟩
  | .float q => .ok ⟨scaleVal (.float q) pfx, unit⟩
  | .int n => .ok ⟨scaleVal (.int n) pfx, unit⟩
  | _ => .error .noPacketForType

/-- Embeds `Packet.unit_check` against another packet's unit: `ValueError`
("Units are not the same") unless `Unit.__eq__` holds. -/
def Packet.unit_check (q : Packet) (other : Packet) : Except PyErr PUnit :=
  if q.unit.eqb other.unit then .ok ⟨⟩ else .error .dimensionMismatch

/-- Embeds `add_logic` of `core/quantities/scalars/methods/arithmetic.py`:
`unit_check`, then `Factory.create(q1.value + q2.value, q1.unit)`. -/
def add_logic (q1 q2 : Packet) : Except PyErr Packet := do
  let _ ← q1.unit_check q2
  match pyAdd q1.value q2.value with
  | some v => Factory.create v q1.unit 0
  | Option.none => .error .noPacketForType

/-- Embeds `sub_logic` of `core/quantities/scalars/methods/arithmetic.py`:
`unit_check`, then `Factory.create(q1.value - q2.value, q1.unit)`. -/
def sub_logic (q1 q2 : Packet) : Except PyErr Packet := do
  let _ ← q1.unit_check q2
  match pySub q1.value q2.value with
  | some v => Factory.create v q1.unit 0
  | Option.none => .error .noPacketForType

/-- Embeds `q1.unit ** q2.value` inside `power_logic`: `Unit.__pow__` accepts an
`int` or `float` exponent and raises `TypeError` otherwise. -/
def unitPowVal (u : Unit) : PyValue → Except PyErr Unit
  | .int n => u.powU (.int n)
  | .float q => u.powU (.float q)
  | _ => .error .unitPowExponentTypeError

/-- Embeds `power_logic` of `core/quantities/scalars/methods/arithmetic.py`.
A non-dimensionless exponent packet raises `TypeError`; a zero exponent
executes `Factory(1.0, DIMENSIONLESS)` — instantiating the `Factory`
class, whose default `object.__init__` accepts no arguments, so this
branch raises `TypeError: Factory() takes no arguments`; otherwise the
new value is `q1.value ** q2.value` (the numeric `**` is the
uninterpreted parameter `pypowFn`, since it can produce irrational
floats) and the new unit is `q1.unit ** q2.value`. -/
def power_logic (pypowFn : PyValue → PyValue → PyValue) (q1 q2 : Packet) :
    Except PyErr Packet :=
  if (q2.unit.eqb DIMENSIONLESS) = false then .error .powBaseNotDimensionless
  else if q2.value.isZero then .error .factoryClassCall
  else do
    let newValue := pypowFn q1.value q2.value
    let newUnit ← unitPowVal q1.unit q2.value
    Factory.create newValue newUnit 0

/-- The expression `Unit.dimensionless()` evaluated by
`core/quantities/scalars/methods/transcendental.py`. The `Unit` class of
`core/unit.py` defines no attribute `dimensionless` (only the instance
helper `_remove_dimensionless`), so the attribute lookup raises
`AttributeError` before any comparison happens. -/
def unitDimensionlessLookup : Except PyErr Unit := .error .attributeError

/-- Embeds `q.magnitude` for the payloads the real-only transcendental module is
applied to (`abs(self.value)` of `RealPacket`). The module's header
restricts it to real scalars; non-real payloads are mapped to 0 and are
outside every claim about this module. -/
def Packet.magnitudeQ (q : Packet) : ℚ :=
  match q.value with
  | .int n => |(n : ℚ)|
  | .float x => |x|
  | _ => 0

/-- Embeds `_valid_input_for_transcendental`: compares `q.unit` with
`Unit.dimensionless()`; the attribute lookup raises `AttributeError`, so
the `ValueError` branch ("requires dimensionless Quantity") is
unreachable. -/
def valid_input_for_transcendental (q : Packet) : Except PyErr PUnit := do
  let d ← unitDimensionlessLookup
  if q.unit.eqb d then .ok ⟨⟩ else .error .dimensionMismatch

/-- Embeds `_valid_input_for_inverse`: `ValueError` unless `-1 <= q.magnitude <= 1`. -/
def valid_input_for_inverse (q : Packet) : Except PyErr PUnit :=
  if -1 ≤ q.magnitudeQ ∧ q.magnitudeQ ≤ 1 then .ok ⟨⟩ else .error .inverseDomain

/-- Embeds `sin_logic`: the dimensionless gate, then
`Factory.create(sin(q.magnitude), q.unit)`. The float `math.sin` is the
uninterpreted parameter `sinF`. -/
def sin_logic (sinF : ℚ → ℚ) (q : Packet) : Except PyErr Packet := do
  let _ ← valid_input_for_transcendental q
  Factory.create (.float (sinF q.magnitudeQ)) q.unit 0

/-- Embeds `asin_logic`: the dimensionless gate, the `[-1, 1]` domain gate, then
`Factory.create(asin(q.magnitude), q.unit)`. -/
def asin_logic (asinF : ℚ → ℚ) (q : Packet) : Except PyErr Packet := do
  let _ ← valid_input_for_transcendental q
  let _ ← valid_input_for_inverse q
  Factory.create (.float (asinF q.magnitudeQ)) q.unit 0

/-- Embeds `nlog_logic`: the dimensionless gate, then
`_valid_input_for_logarithms(q, e, ...)` whose base checks on the constant
`e` (`e <= 0`, `e == 1`) are statically false, leaving the
`q.magnitude <= 0` check; then `Factory.create(log(q.magnitude), q.unit)`. -/
def nlog_logic (logF : ℚ → ℚ) (q : Packet) : Except PyErr Packet := do
  let _ ← valid_input_for_transcendental q
  let _ ← if q.magnitudeQ ≤ 0 then Except.error PyErr.logDomain else Except.ok PUnit.unit
  Factory.create (.float (logF q.magnitudeQ)) q.unit 0

/-- Embeds `acot_logic`: the dimensionless gate, a `ZeroDivisionError` at
magnitude 0, then `Factory.create(atan(1 / q.magnitude), q.unit)`. -/
def acot_logic (atanF : ℚ → ℚ) (q : Packet) : Except PyErr Packet := do
  let _ ← valid_input_for_transcendental q
  let _ ← if q.magnitudeQ = 0 then Except.error PyErr.acotZero else Except.ok PUnit.unit
  Factory.create (.float (atanF (1 / q.magnitudeQ))) q.unit 0

/-- Embeds `ComplexPacket._raise_ordering_error`: unconditionally raises
`TypeError` ("Cannot order complex quantities ... no natural ordering"). -/
def ComplexPacket.raise_ordering_error : Except PyErr Bool := .error .complexUnorderable

/-- Embeds `ComplexPacket.__lt__`: discards the operand and raises. -/
def ComplexPacket.lt {α : Type} (_q : Packet) (_other : α) : Except PyErr Bool :=
  ComplexPacket.raise_ordering_error

/-- Embeds `ComplexPacket.__le__`: discards the operand and raises. -/
def ComplexPacket.le {α : Type} (_q : Packet) (_other : α) : Except PyErr Bool :=
  ComplexPacket.raise_ordering_error

/-- Embeds `ComplexPacket.__gt__`: discards the operand and raises. -/
def ComplexPacket.gt {α : Type} (_q : Packet) (_other : α) : Except PyErr Bool :=
  ComplexPacket.raise_ordering_error

/-- Embeds `ComplexPacket.__ge__`: discards the operand and raises. -/
def ComplexPacket.ge {α : Type} (_q : Packet) (_other : α) : Except PyErr Bool :=
  ComplexPacket.raise_ordering_error

/-- Embeds `VectorPacket._raise_ordering_error`: unconditionally raises
`TypeError` ("Cannot order vector quantities ... no natural ordering"). -/
def VectorPacket.raise_ordering_error : Except PyErr Bool := .error .vectorUnorderable

/-- Embeds `VectorPacket.__lt__`: discards the operand and raises. -/
def VectorPacket.lt {α : Type} (_q : Packet) (_other : α) : Except PyErr Bool :=
  VectorPacket.raise_ordering_error

/-- Embeds `VectorPacket.__le__`: discards the operand and raises. -/
def VectorPacket.le {α : Type} (_q : Packet) (_other : α) : Except PyErr Bool :=
  VectorPacket.raise_ordering_error

/-- Embeds `VectorPacket.__gt__`: discards the operand and raises. -/
def VectorPacket.gt {α : Type} (_q : Packet) (_other : α) : Except PyErr Bool :=
  VectorPacket.raise_ordering_error

/-- Embeds `VectorPacket.__ge__`: discards the operand and raises. -/
def VectorPacket.ge {α : Type} (_q : Packet) (_other : α) : Except PyErr Bool :=
  VectorPacket.raise_ordering_error

/-! Observation functions and well-formedness predicates used to state the
properties (not part of the embedded code). -/

/-- Strict comparison on the display order of the bases. -/
def dimLT (a b : Dimension) : Prop := a.base.order < b.base.order

/-- A `Dimension` value reachable through `Dimension.__post_init__`. -/
def Dimension.Valid (d : Dimension) : Prop :=
  |d.exponent| ≤ MAX_EXPONENT ∧
  (d.base = .dimensionless → d.exponent = 1) ∧
  (d.base ≠ .dimensionless → d.exponent ≠ 0)

/-- A `Unit` value as produced by `Unit.__init__`: valid members, strictly
ordered by base order (hence no duplicate bases), and a dimensionless
member only in the singleton dimensionless unit. -/
def Unit.Canonical (u : Unit) : Prop :=
  (∀ d ∈ u.dims, d.Valid) ∧
  u.dims.Pairwise dimLT ∧
  (Dimension.dimensionlessDim ∈ u.dims → u.dims = [Dimension.dimensionlessDim])

instance : DecidableRel dimLT := fun a b => Nat.decLt a.base.order b.base.order

instance : DecidablePred Dimension.Valid := fun d => by
  unfold Dimension.Valid
  infer_instance

instance : DecidablePred Unit.Canonical := fun u => by
  unfold Unit.Canonical
  infer_instance

/-- Total value recorded for key `b` in an association-list dict. -/
def dictExp (m : List (FBase × Int)) (b : FBase) : Int :=
  ((m.filter (fun p => p.1 = b)).map Prod.snd).sum

/-- The `Dimension` that `Dimension.construct b (.int e)` produces when it
succeeds on a nonzero in-range exponent. -/
def canonDim (p : FBase × Int) : Dimension :=
  if p.1 = .dimensionless then ⟨.dimensionless, 1⟩ else ⟨p.1, p.2⟩

/-- Whether a packet is a `RealPacket` (an `int` or `float` payload). -/
def Packet.isRealPacket (q : Packet) : Bool :=
  match q.value with
  | .int _ => true
  | .float _ => true
  | _ => false

/-- Whether a packet is a `ComplexPacket` (a `complex` payload). -/
def Packet.isComplexPacket (q : Packet) : Bool :=
  match q.value with
  | .complex _ _ => true
  | _ => false

/-- Decidable equality of outcomes, so that concrete runs can be checked
by `decide`. -/
def exceptDecEq {α β : Type} [DecidableEq α] [DecidableEq β] : DecidableEq (Except α β)
  | .error x, .error y =>
    if h : x = y then .isTrue (by rw [h]) else .isFalse (fun hc => h (by injection hc))
  | .error _, .ok _ => .isFalse (fun hc => Except.noConfusion hc)
  | .ok _, .error _ => .isFalse (fun hc => Except.noConfusion hc)
  | .ok x, .ok y =>
    if h : x = y then .isTrue (by rw [h]) else .isFalse (fun hc => h (by injection hc))

instance {α β : Type} [DecidableEq α] [DecidableEq β] : DecidableEq (Except α β) :=
  exceptDecEq

/-! Helper lemmas about the embedded definitions. -/

instance : IsTotal Dimension dimLE := ⟨fun a b => Nat.le_total a.base.order b.base.order⟩

instance : IsTrans Dimension dimLE := ⟨fun _ _ _ h1 h2 => Nat.le_trans h1 h2⟩

instance : IsAntisymm Dimension dimLT :=
  ⟨fun _ _ h1 h2 => absurd (Nat.lt_trans h1 h2) (Nat.lt_irrefl _)⟩

lemma order_inj : ∀ a b : FBase, a.order = b.order → a = b := by decide

lemma sortDims_perm (l : List Dimension) : List.Perm (sortDims l) l := List.perm_insertionSort _ _

lemma sortDims_sorted (l : List Dimension) : List.Sorted dimLE (sortDims l) :=
  List.sorted_insertionSort _ _

lemma pairwise_lt_of_sorted_nodup {l : List Dimension}
    (hs : List.Sorted dimLE l) (hn : (l.map Dimension.base).Nodup) :
    l.Pairwise dimLT := by
  have hne : l.Pairwise (fun a b : Dimension => a.base ≠ b.base) := List.pairwise_map.mp hn
  exact (hs.and hne).imp
    (fun h => Nat.lt_of_le_of_ne h.1 (fun he => h.2 (order_inj _ _ he)))

lemma nodup_bases_of_pairwise_lt {l : List Dimension} (h : l.Pairwise dimLT) :
    (l.map Dimension.base).Nodup := by
  refine List.pairwise_map.mpr (h.imp ?_)
  intro a b hab hbase
  exact absurd (congrArg FBase.order hbase) (Nat.ne_of_lt hab)

lemma filter_base_eq_nil {l : List Dimension} {b : FBase} (h : ∀ d ∈ l, d.base ≠ b) :
    l.filter (fun d => d.base = b) = [] := by
  induction l with
  | nil => rfl
  | cons a t ih =>
    have ha : a.base ≠ b := h a (by simp)
    simp only [List.filter_cons, decide_eq_true_eq]
    rw [if_neg ha]
    exact ih (fun d hd => h d (by simp [hd]))

lemma filter_base_unique {l : List Dimension} (hn : (l.map Dimension.base).Nodup)
    {d : Dimension} (hd : d ∈ l) : l.filter (fun x => x.base = d.base) = [d] := by
  induction l with
  | nil => cases hd
  | cons a t ih =>
    rw [List.map_cons, List.nodup_cons] at hn
    rcases List.mem_cons.mp hd with rfl | hdt
    · have ht : t.filter (fun x => x.base = d.base) = [] :=
        filter_base_eq_nil (fun x hx he => hn.1 (by rw [← he]; exact List.mem_map_of_mem _ hx))
      simp [List.filter_cons, ht]
    · have hne : a.base ≠ d.base :=
        fun he => hn.1 (by rw [he]; exact List.mem_map_of_mem _ hdt)
      simp only [List.filter_cons, decide_eq_true_eq]
      rw [if_neg hne]
      exact ih hn.2 hdt

lemma listExp_of_not_mem {l : List Dimension} {b : FBase} (h : ∀ d ∈ l, d.base ≠ b) :
    listExp l b = 0 := by
  unfold listExp
  rw [filter_base_eq_nil h]
  rfl

lemma listExp_of_unique {l : List Dimension} (hn : (l.map Dimension.base).Nodup)
    {d : Dimension} (hd : d ∈ l) : listExp l d.base = d.exponent := by
  unfold listExp
  rw [filter_base_unique hn hd]
  simp

lemma listExp_perm {l1 l2 : List Dimension} (h : List.Perm l1 l2) (b : FBase) :
    listExp l1 b = listExp l2 b :=
  ((h.filter _).map _).sum_eq

lemma valid_ne_dimensionless_iff {d : Dimension} (hv : d.Valid) :
    d ≠ Dimension.dimensionlessDim ↔ d.base ≠ FBase.dimensionless := by
  constructor
  · intro h hb
    apply h
    have he : d.exponent = 1 := hv.2.1 hb
    cases d
    simp_all [Dimension.dimensionlessDim]
  · intro h he
    rw [he] at h
    exact h rfl

lemma Unit.Canonical.nodup_bases {u : Unit} (h : u.Canonical) :
    (u.dims.map Dimension.base).Nodup := nodup_bases_of_pairwise_lt h.2.1

lemma Unit.Canonical.expOf_abs_le {u : Unit} (h : u.Canonical) (b : FBase) :
    |u.expOf b| ≤ MAX_EXPONENT := by
  by_cases hb : ∃ d ∈ u.dims, d.base = b
  · obtain ⟨d, hd, rfl⟩ := hb
    rw [show u.expOf d.base = listExp u.dims d.base from rfl,
      listExp_of_unique h.nodup_bases hd]
    exact (h.1 d hd).1
  · push_neg at hb
    rw [show u.expOf b = listExp u.dims b from rfl, listExp_of_not_mem hb]
    norm_num [MAX_EXPONENT]

lemma Unit.Canonical.listExp_dimensionless {u : Unit} (h : u.Canonical) :
    listExp u.dims FBase.dimensionless = 0 ∨ listExp u.dims FBase.dimensionless = 1 := by
  by_cases hb : ∃ d ∈ u.dims, d.base = FBase.dimensionless
  · obtain ⟨d, hd, hdb⟩ := hb
    right
    have hu := listExp_of_unique h.nodup_bases hd
    rw [hdb] at hu
    rw [hu, (h.1 d hd).2.1 hdb]
  · left
    push_neg at hb
    exact listExp_of_not_mem hb

lemma buildList_ok {β : Type} {f : β → Except PyErr Dimension} {g : β → Dimension}
    {l : List β} (h : ∀ x ∈ l, f x = .ok (g x)) : buildList f l = .ok (l.map g) := by
  induction l with
  | nil => rfl
  | cons a t ih =>
    have ha := h a (by simp)
    have ht := ih (fun x hx => h x (by simp [hx]))
    simp only [buildList, ha, ht, List.map_cons]
    rfl

lemma filter_fst_nil {m : List (FBase × Int)} {b : FBase} (h : ∀ p ∈ m, p.1 ≠ b) :
    m.filter (fun p => p.1 = b) = [] := by
  induction m with
  | nil => rfl
  | cons a t ih =>
    have ha : a.1 ≠ b := h a (by simp)
    simp only [List.filter_cons, decide_eq_true_eq]
    rw [if_neg ha]
    exact ih (fun p hp => h p (by simp [hp]))

lemma filter_fst_unique {m : List (FBase × Int)} (hn : (m.map Prod.fst).Nodup)
    {p : FBase × Int} (hp : p ∈ m) : m.filter (fun x => x.1 = p.1) = [p] := by
  induction m with
  | nil => cases hp
  | cons a t ih =>
    rw [List.map_cons, List.nodup_cons] at hn
    rcases List.mem_cons.mp hp with rfl | hpt
    · have ht : t.filter (fun x => x.1 = p.1) = [] :=
        filter_fst_nil (fun x hx he => hn.1 (by rw [← he]; exact List.mem_map_of_mem _ hx))
      simp [List.filter_cons, ht]
    · have hne : a.1 ≠ p.1 :=
        fun he => hn.1 (by rw [he]; exact List.mem_map_of_mem _ hpt)
      simp only [List.filter_cons, decide_eq_true_eq]
      rw [if_neg hne]
      exact ih hn.2 hpt

lemma dictExp_of_not_key {m : List (FBase × Int)} {b : FBase} (h : ∀ p ∈ m, p.1 ≠ b) :
    dictExp m b = 0 := by
  unfold dictExp
  rw [filter_fst_nil h]
  rfl

lemma keys_dictAdd_nodup {m : List (FBase × Int)} (hn : (m.map Prod.fst).Nodup)
    (b : FBase) (e : Int) : ((dictAdd m b e).map Prod.fst).Nodup := by
  unfold dictAdd
  by_cases h : m.any (fun p => p.1 = b)
  · rw [if_pos h]
    have : (m.map (fun p => if p.1 = b then (p.1, p.2 + e) else p)).map Prod.fst
        = m.map Prod.fst := by
      rw [List.map_map]
      refine List.map_congr_left (fun p _ => ?_)
      by_cases hp : p.1 = b <;> simp [hp]
    rw [this]
    exact hn
  · rw [if_neg h]
    rw [List.map_append]
    rw [List.nodup_append]
    refine ⟨hn, List.nodup_singleton b, ?_⟩
    intro x hx hb
    simp only [List.map_cons, List.map_nil, List.mem_singleton] at hb
    subst hb
    rw [List.any_eq_true] at h
    obtain ⟨p, hp, hpe⟩ := List.mem_map.mp hx
    exact h ⟨p, hp, by simp [hpe]⟩

lemma dictExp_dictAdd {m : List (FBase × Int)} (hn : (m.map Prod.fst).Nodup)
    (b : FBase) (e : Int) (b' : FBase) :
    dictExp (dictAdd m b e) b' = dictExp m b' + (if b' = b then e else 0) := by
  unfold dictAdd
  by_cases h : m.any (fun p => p.1 = b)
  · rw [if_pos h]
    by_cases hb : b' = b
    · subst hb
      rw [List.any_eq_true] at h
      obtain ⟨p, hp, hpe⟩ := h
      rw [decide_eq_true_eq] at hpe
      have hf : m.filter (fun x => x.1 = b') = [p] := by
        rw [← hpe]
        exact filter_fst_unique hn hp
      have hmap : (m.map (fun x => if x.1 = b' then (x.1, x.2 + e) else x)).filter
          (fun x => x.1 = b') = [(p.1, p.2 + e)] := by
        rw [List.filter_map]
        have hcomp : ((fun x : FBase × Int => decide (x.1 = b')) ∘
            (fun x : FBase × Int => if x.1 = b' then (x.1, x.2 + e) else x))
            = fun x : FBase × Int => decide (x.1 = b') := by
          funext x
          by_cases hx : x.1 = b' <;> simp [Function.comp, hx]
        rw [hcomp, hf]
        simp [hpe]
      unfold dictExp
      rw [hmap, hf]
      simp [Int.add_comm]
    · rw [if_neg hb]
      unfold dictExp
      rw [List.filter_map]
      have hbb : ¬ b = b' := Ne.symm hb
      have hcomp : ((fun x : FBase × Int => decide (x.1 = b')) ∘
          (fun x : FBase × Int => if x.1 = b then (x.1, x.2 + e) else x))
          = fun x : FBase × Int => decide (x.1 = b') := by
        funext x
        by_cases hx : x.1 = b <;> simp [Function.comp, hx, hbb]
      rw [hcomp, List.map_map]
      have hz : ∀ x ∈ m.filter (fun x => x.1 = b'),
          (Prod.snd ∘ (fun x : FBase × Int => if x.1 = b then (x.1, x.2 + e) else x)) x
            = Prod.snd x := by
        intro x hx
        have hx' : x.1 = b' := by
          have := List.of_mem_filter hx
          simpa using this
        have hxb : ¬ x.1 = b := by
          rw [hx']
          exact hb
        simp [Function.comp, hxb]
      rw [List.map_congr_left hz]
      simp
  · rw [if_neg h]
    have hnk : ∀ p ∈ m, p.1 ≠ b := by
      intro p hp he
      rw [List.any_eq_true] at h
      exact h ⟨p, hp, by simp [he]⟩
    unfold dictExp
    rw [List.filter_append]
    by_cases hb : b' = b
    · subst hb
      rw [filter_fst_nil hnk]
      simp
    · have hbb : ¬ b = b' := Ne.symm hb
      have : ([(b, e)].filter (fun p => p.1 = b')) = [] := by
        simp [List.filter_cons, hbb]
      rw [this]
      simp [hb]

lemma listExp_cons (d : Dimension) (t : List Dimension) (b : FBase) :
    listExp (d :: t) b = (if d.base = b then d.exponent else 0) + listExp t b := by
  unfold listExp
  rw [List.filter_cons]
  by_cases hd : d.base = b <;> simp [hd]

lemma dictExp_cons (p : FBase × Int) (t : List (FBase × Int)) (b : FBase) :
    dictExp (p :: t) b = (if p.1 = b then p.2 else 0) + dictExp t b := by
  unfold dictExp
  rw [List.filter_cons]
  by_cases hp : p.1 = b <;> simp [hp]

lemma dictExp_of_dims (ds : List Dimension) (b : FBase) :
    dictExp (ds.map (fun d => (d.base, d.exponent))) b = listExp ds b := by
  induction ds with
  | nil => rfl
  | cons d t ih => rw [List.map_cons, dictExp_cons, listExp_cons, ih]

lemma dictExp_filter_ne_zero (m : List (FBase × Int)) (b : FBase) :
    dictExp (m.filter (fun p => p.2 ≠ 0)) b = dictExp m b := by
  induction m with
  | nil => rfl
  | cons p t ih =>
    rw [List.filter_cons]
    by_cases hp : p.2 = 0
    · rw [if_neg (by simp [hp])]
      rw [ih, dictExp_cons]
      by_cases hb : p.1 = b <;> simp [hb, hp]
    · rw [if_pos (by simp [hp])]
      rw [dictExp_cons, dictExp_cons, ih]

lemma dictExp_of_mem_unique {m : List (FBase × Int)} (hn : (m.map Prod.fst).Nodup)
    {p : FBase × Int} (hp : p ∈ m) : dictExp m p.1 = p.2 := by
  unfold dictExp
  rw [filter_fst_unique hn hp]
  simp

lemma dictOfDims_go :
    ∀ (ds : List Dimension) (acc : List (FBase × Int)),
    (acc.map Prod.fst ++ ds.map Dimension.base).Nodup →
    ds.foldl
      (fun l d =>
        if l.any (fun p => p.1 = d.base) then
          l.map (fun p => if p.1 = d.base then (p.1, d.exponent) else p)
        else l ++ [(d.base, d.exponent)])
      acc
      = acc ++ ds.map (fun d => (d.base, d.exponent)) := by
  intro ds
  induction ds with
  | nil =>
    intro acc _
    simp
  | cons d t ih =>
    intro acc hnd
    have hmem : d.base ∉ acc.map Prod.fst := by
      intro hin
      have hdisj := (List.nodup_append.mp hnd).2.2
      exact hdisj hin (by simp)
    have hany : ¬ (acc.any (fun p => p.1 = d.base) = true) := by
      rw [List.any_eq_true]
      rintro ⟨p, hp, hpe⟩
      rw [decide_eq_true_eq] at hpe
      exact hmem (by rw [← hpe]; exact List.mem_map_of_mem _ hp)
    rw [List.foldl_cons, if_neg hany]
    have hnd' : ((acc ++ [(d.base, d.exponent)]).map Prod.fst ++ t.map Dimension.base).Nodup := by
      rw [List.map_append]
      have : acc.map Prod.fst ++ [(d.base, d.exponent)].map Prod.fst ++ t.map Dimension.base
          = acc.map Prod.fst ++ ([(d.base, d.exponent)].map Prod.fst ++ t.map Dimension.base) :=
        List.append_assoc _ _ _
      rw [this]
      simpa using hnd
    rw [ih (acc ++ [(d.base, d.exponent)]) hnd']
    simp

lemma dictOfDims_eq {ds : List Dimension} (hn : (ds.map Dimension.base).Nodup) :
    dictOfDims ds = ds.map (fun d => (d.base, d.exponent)) := by
  unfold dictOfDims
  have := dictOfDims_go ds [] (by simpa using hn)
  simpa using this

lemma merge_fold (division : Bool) :
    ∀ (ds : List Dimension) (m : List (FBase × Int)), (m.map Prod.fst).Nodup →
    (((ds.foldl (fun l d => dictAdd l d.base (if division then -d.exponent else d.exponent))
        m).map Prod.fst).Nodup ∧
      ∀ b, dictExp (ds.foldl
          (fun l d => dictAdd l d.base (if division then -d.exponent else d.exponent)) m) b
        = dictExp m b + (if division then -(listExp ds b) else listExp ds b)) := by
  intro ds
  induction ds with
  | nil =>
    intro m hn
    refine ⟨hn, fun b => ?_⟩
    have h0 : listExp ([] : List Dimension) b = 0 := rfl
    rw [List.foldl_nil, h0]
    cases division <;> simp
  | cons d t ih =>
    intro m hn
    rw [List.foldl_cons]
    have hstep := dictExp_dictAdd hn d.base (if division then -d.exponent else d.exponent)
    have hnd' := keys_dictAdd_nodup hn d.base (if division then -d.exponent else d.exponent)
    obtain ⟨hn2, hexp⟩ := ih (dictAdd m d.base (if division then -d.exponent else d.exponent)) hnd'
    refine ⟨hn2, fun b => ?_⟩
    rw [hexp b, hstep b, listExp_cons]
    have hcomm : (d.base = b) = (b = d.base) := propext ⟨fun h => h.symm, fun h => h.symm⟩
    cases division <;> by_cases hb : b = d.base <;> simp [hcomm, hb] <;> ring

lemma canonDim_base (p : FBase × Int) :
    (canonDim p).base = if p.1 = FBase.dimensionless then FBase.dimensionless else p.1 := by
  unfold canonDim
  by_cases hp : p.1 = FBase.dimensionless <;> simp [hp]

lemma construct_ok_canonDim {b : FBase} {e : Int} (he : e ≠ 0) (hle : |e| ≤ MAX_EXPONENT) :
    Dimension.construct b (.int e) = .ok (canonDim (b, e)) := by
  have h1 : Dimension.construct b (.int e)
      = if MAX_EXPONENT < |e| then Except.error PyErr.exponentLimit
        else if e = 0 then Except.ok ⟨FBase.dimensionless, 1⟩
        else if b = FBase.dimensionless then Except.ok ⟨FBase.dimensionless, 1⟩
        else Except.ok ⟨b, e⟩ := rfl
  rw [h1, if_neg (not_lt.mpr hle), if_neg he]
  unfold canonDim
  by_cases hb : b = FBase.dimensionless <;> simp [hb]

lemma canonDim_valid {p : FBase × Int} (he : p.2 ≠ 0) (hle : |p.2| ≤ MAX_EXPONENT) :
    (canonDim p).Valid := by
  unfold canonDim Dimension.Valid
  by_cases hp : p.1 = FBase.dimensionless
  · simp only [hp, if_pos rfl]
    refine ⟨by norm_num [MAX_EXPONENT], fun _ => rfl, fun h => absurd rfl h⟩
  · simp only [if_neg hp]
    exact ⟨hle, fun h => absurd h hp, fun _ => he⟩

lemma dimensionlessDim_valid : Dimension.dimensionlessDim.Valid :=
  ⟨by norm_num [Dimension.dimensionlessDim, MAX_EXPONENT], fun _ => rfl, fun h => absurd rfl h⟩

lemma sortDims_singleton (d : Dimension) : sortDims [d] = [d] := rfl

lemma listExp_filter_ne {l : List Dimension} {b : FBase} (hb : b ≠ FBase.dimensionless) :
    listExp (l.filter (fun d => d.base ≠ FBase.dimensionless)) b = listExp l b := by
  induction l with
  | nil => rfl
  | cons d t ih =>
    rw [List.filter_cons, listExp_cons]
    by_cases hd : d.base = FBase.dimensionless
    · rw [if_neg (by simp [hd])]
      rw [ih, if_neg (by rw [hd]; exact fun h => hb h.symm)]
      simp
    · rw [if_pos (by simp [hd]), listExp_cons, ih]

lemma construct_char {l : List Dimension}
    (hv : ∀ d ∈ l, d.Valid)
    (hnd : ((l.filter (fun d => d.base ≠ FBase.dimensionless)).map Dimension.base).Nodup) :
    ∃ u : Unit, Unit.construct l = .ok u ∧ u.Canonical ∧
      (∀ b, b ≠ FBase.dimensionless → u.expOf b = listExp l b) ∧
      (u.dims = [] ↔ 2 ≤ l.length ∧ ∀ d ∈ l, d.base = FBase.dimensionless) := by
  cases l with
  | nil =>
    refine ⟨⟨[Dimension.dimensionlessDim]⟩, rfl, ?_, ?_, ?_⟩
    · exact ⟨by
        intro d hd
        rw [List.mem_singleton] at hd
        subst hd
        exact dimensionlessDim_valid,
        List.pairwise_singleton _ _, fun _ => rfl⟩
    · intro b hb
      show listExp [Dimension.dimensionlessDim] b = listExp [] b
      rw [listExp_cons]
      rw [if_neg (by exact fun h => hb h.symm)]
      rfl
    · simp
  | cons d1 l2 =>
    cases l2 with
    | nil =>
      refine ⟨⟨[d1]⟩, rfl, ?_, ?_, ?_⟩
      · refine ⟨by
          intro x hx
          rw [List.mem_singleton] at hx
          rw [hx]
          exact hv d1 (by simp),
          List.pairwise_singleton _ _, ?_⟩
        intro hm
        rw [List.mem_singleton] at hm
        rw [hm]
      · intro b _
        rfl
      · simp
    | cons d2 t =>
      set l' := d1 :: d2 :: t with hl'
      have hlen2 : 2 ≤ l'.length := by simp [hl']
      have hfc : l'.filter (fun d => d ≠ Dimension.dimensionlessDim)
          = l'.filter (fun d => d.base ≠ FBase.dimensionless) := by
        refine List.filter_congr (fun d hd => ?_)
        exact decide_eq_decide.mpr (valid_ne_dimensionless_iff (hv d hd))
      have hcon : Unit.construct l'
          = .ok ⟨sortDims (l'.filter (fun d => d.base ≠ FBase.dimensionless))⟩ := by
        unfold Unit.construct
        have hne : l'.isEmpty = false := rfl
        have hlen1 : ¬ l'.length = 1 := by simp [hl']
        simp only [hne, Bool.false_eq_true, if_false, if_neg hlen1, hfc, if_pos hnd]
      set f := l'.filter (fun d => d.base ≠ FBase.dimensionless) with hf
      have hperm : List.Perm (sortDims f) f := sortDims_perm f
      have hnds : ((sortDims f).map Dimension.base).Nodup := (hperm.map _).nodup_iff.mpr hnd
      refine ⟨⟨sortDims f⟩, hcon, ⟨?_, ?_, ?_⟩, ?_, ?_⟩
      · intro d hd
        have : d ∈ f := hperm.mem_iff.mp hd
        exact hv d (List.mem_of_mem_filter this)
      · exact pairwise_lt_of_sorted_nodup (sortDims_sorted f) hnds
      · intro hm
        have : Dimension.dimensionlessDim ∈ f := hperm.mem_iff.mp hm
        have hbase := List.of_mem_filter this
        simp [Dimension.dimensionlessDim] at hbase
      · intro b hb
        show listExp (sortDims f) b = listExp l' b
        rw [listExp_perm hperm]
        exact listExp_filter_ne hb
      · constructor
        · intro hemp
          have hfe : f = [] := by
            have := hperm.length_eq
            rw [show (⟨sortDims f⟩ : Unit).dims = sortDims f from rfl] at hemp
            rw [hemp] at this
            exact List.length_eq_zero.mp this.symm
          refine ⟨hlen2, fun d hd => ?_⟩
          by_contra hdb
          have : d ∈ f := List.mem_filter.mpr ⟨hd, by simpa using hdb⟩
          rw [hfe] at this
          cases this
        · rintro ⟨-, hall⟩
          have hfe : f = [] := by
            rw [hf]
            rw [List.filter_eq_nil_iff]
            intro d hd
            simp [hall d hd]
          show sortDims f = []
          rw [hfe]
          rfl

lemma DIMENSIONLESS_canonical : DIMENSIONLESS.Canonical := by
  refine ⟨?_, List.pairwise_singleton _ _, fun _ => rfl⟩
  intro d hd
  rw [show DIMENSIONLESS.dims = [Dimension.dimensionlessDim] from rfl,
    List.mem_singleton] at hd
  rw [hd]
  exact dimensionlessDim_valid

lemma listExp_dimensionless_unit {b : FBase} (hb : b ≠ FBase.dimensionless) :
    listExp [Dimension.dimensionlessDim] b = 0 := by
  rw [listExp_cons, if_neg (fun h => hb h.symm)]
  rfl

lemma map_canon_filter (E : List (FBase × Int)) :
    (E.map canonDim).filter (fun d => d.base ≠ FBase.dimensionless)
      = (E.filter (fun p => p.1 ≠ FBase.dimensionless)).map canonDim := by
  rw [List.filter_map]
  congr 1
  apply List.filter_congr
  intro p _
  by_cases hp : p.1 = FBase.dimensionless <;> simp [canonDim, Function.comp, hp]

lemma listExp_map_canon {E : List (FBase × Int)} {b : FBase} (hb : b ≠ FBase.dimensionless) :
    listExp (E.map canonDim) b = dictExp E b := by
  induction E with
  | nil => rfl
  | cons p t ih =>
    rw [List.map_cons, listExp_cons, dictExp_cons, ih]
    by_cases hp : p.1 = FBase.dimensionless
    · rw [if_neg (by rw [canonDim_base, if_pos hp]; exact fun h => hb h.symm)]
      rw [if_neg (by rw [hp]; exact fun h => hb h.symm)]
    · by_cases hpb : p.1 = b
      · rw [if_pos (by rw [canonDim_base, if_neg hp]; exact hpb), if_pos hpb]
        unfold canonDim
        rw [if_neg hp]
      · rw [if_neg (by rw [canonDim_base, if_neg hp]; exact hpb), if_neg hpb]

lemma da_char {u1 u2 : Unit} (h1 : u1.Canonical) (h2 : u2.Canonical) (division : Bool)
    (hbound : ∀ b, b ≠ FBase.dimensionless →
      |listExp u1.dims b + (if division then -(listExp u2.dims b) else listExp u2.dims b)|
        ≤ MAX_EXPONENT) :
    ∃ r : Unit, Unit.dimensional_analysis u1 u2 division = .ok r ∧ r.Canonical ∧ r.dims ≠ [] ∧
      (∀ b, b ≠ FBase.dimensionless →
        r.expOf b = listExp u1.dims b
          + (if division then -(listExp u2.dims b) else listExp u2.dims b)) := by
  have hnb1 := h1.nodup_bases
  have hdict := dictOfDims_eq hnb1
  have hkeys0 : (u1.dims.map (fun d => (d.base, d.exponent))).map Prod.fst
      = u1.dims.map Dimension.base := by
    rw [List.map_map]
    rfl
  have hkn0 : ((u1.dims.map (fun d => (d.base, d.exponent))).map Prod.fst).Nodup := by
    rw [hkeys0]
    exact hnb1
  obtain ⟨hknC, hexpC⟩ :=
    merge_fold division u2.dims (u1.dims.map (fun d => (d.base, d.exponent))) hkn0
  set C := u2.dims.foldl
    (fun l d => dictAdd l d.base (if division then -d.exponent else d.exponent))
    (u1.dims.map (fun d => (d.base, d.exponent))) with hC
  set E := C.filter (fun p => p.2 ≠ 0) with hEdef
  have hknE : (E.map Prod.fst).Nodup := ((List.filter_sublist C).map Prod.fst).nodup hknC
  have hexpE : ∀ b, dictExp E b = dictExp C b := fun b => dictExp_filter_ne_zero C b
  have hCexp : ∀ b, dictExp C b = listExp u1.dims b
      + (if division then -(listExp u2.dims b) else listExp u2.dims b) := by
    intro b
    rw [hexpC b, dictExp_of_dims]
  have hmemE : ∀ p ∈ E, p.2 ≠ 0 ∧ |p.2| ≤ MAX_EXPONENT := by
    intro p hp
    have hpz : p.2 ≠ 0 := by simpa using List.of_mem_filter hp
    refine ⟨hpz, ?_⟩
    have hval : dictExp E p.1 = p.2 := dictExp_of_mem_unique hknE hp
    rw [← hval, hexpE, hCexp]
    by_cases hpb : p.1 = FBase.dimensionless
    · rw [hpb]
      rcases h1.listExp_dimensionless with ha | ha <;>
        rcases h2.listExp_dimensionless with hb | hb <;>
          rw [ha, hb] <;> cases division <;> norm_num [MAX_EXPONENT]
    · exact hbound p.1 hpb
  have hbuild : buildList (fun p => Dimension.construct p.1 (.int p.2)) E
      = .ok (E.map canonDim) :=
    buildList_ok (fun p hp => construct_ok_canonDim (hmemE p hp).1 (hmemE p hp).2)
  have hda : Unit.dimensional_analysis u1 u2 division
      = if (E.map canonDim).isEmpty then Unit.construct [] else
          Unit.construct (E.map canonDim) := by
    simp only [Unit.dimensional_analysis]
    rw [hdict, ← hC, ← hEdef, hbuild]
    rfl
  by_cases hEe : E = []
  · have hmape : E.map canonDim = [] := by rw [hEe]; rfl
    refine ⟨DIMENSIONLESS, ?_, DIMENSIONLESS_canonical, by
      show ¬ [Dimension.dimensionlessDim] = []
      simp, ?_⟩
    · rw [hda, hmape]
      rfl
    · intro b hb
      have hr : DIMENSIONLESS.expOf b = 0 := listExp_dimensionless_unit hb
      rw [hr, ← hCexp b, ← hexpE b, hEe]
      rfl
  · have hv' : ∀ d ∈ E.map canonDim, d.Valid := by
      intro d hd
      obtain ⟨p, hp, rfl⟩ := List.mem_map.mp hd
      exact canonDim_valid (hmemE p hp).1 (hmemE p hp).2
    have hnd' : (((E.map canonDim).filter
        (fun d => d.base ≠ FBase.dimensionless)).map Dimension.base).Nodup := by
      rw [map_canon_filter]
      have hmc : ((E.filter (fun p => p.1 ≠ FBase.dimensionless)).map canonDim).map
          Dimension.base = (E.filter (fun p => p.1 ≠ FBase.dimensionless)).map Prod.fst := by
        rw [List.map_map]
        refine List.map_congr_left (fun p hp => ?_)
        have hpne : p.1 ≠ FBase.dimensionless := by simpa using List.of_mem_filter hp
        show (canonDim p).base = p.1
        rw [canonDim_base, if_neg hpne]
      rw [hmc]
      exact ((List.filter_sublist E).map Prod.fst).nodup hknE
    obtain ⟨r, hok, hcanon, hexp, hempt⟩ := construct_char hv' hnd'
    refine ⟨r, ?_, hcanon, ?_, ?_⟩
    · rw [hda, if_neg (by simp [hEe]), hok]
    · intro hre
      obtain ⟨hlen, hall⟩ := hempt.mp hre
      have hallE : ∀ p ∈ E, p.1 = FBase.dimensionless := by
        intro p hp
        have hmem := hall (canonDim p) (List.mem_map_of_mem _ hp)
        rw [canonDim_base] at hmem
        by_cases hpd : p.1 = FBase.dimensionless
        · exact hpd
        · rw [if_neg hpd] at hmem
          exact hmem
      rcases E with - | ⟨a, - | ⟨c, t⟩⟩
      · exact hEe rfl
      · simp at hlen
      · have hna : a.1 ∉ ((c :: t).map Prod.fst) := by
          have hkn := hknE
          rw [List.map_cons, List.nodup_cons] at hkn
          exact hkn.1
        have hcd : c.1 = FBase.dimensionless := hallE c (by simp)
        have had : a.1 = FBase.dimensionless := hallE a (by simp)
        exact hna (by rw [had, List.map_cons, ← hcd]; simp)
    · intro b hb
      rw [hexp b hb, listExp_map_canon hb, hexpE, hCexp]

lemma realDims_mem_iff {u : Unit} (h : u.Canonical) {d : Dimension} :
    d ∈ u.dims.filter (fun x => x.base ≠ FBase.dimensionless)
      ↔ d.base ≠ FBase.dimensionless ∧ d.exponent ≠ 0 ∧ u.expOf d.base = d.exponent := by
  constructor
  · intro hd
    have hmem := List.mem_of_mem_filter hd
    have hbase : d.base ≠ FBase.dimensionless := by simpa using List.of_mem_filter hd
    exact ⟨hbase, (h.1 d hmem).2.2 hbase, listExp_of_unique h.nodup_bases hmem⟩
  · rintro ⟨hbase, hez, hexp⟩
    by_cases hex : ∃ x ∈ u.dims, x.base = d.base
    · obtain ⟨x, hx, hxb⟩ := hex
      have hxe : u.expOf d.base = x.exponent := by
        rw [← hxb]
        exact listExp_of_unique h.nodup_bases hx
      have hdx : d = x := by
        cases d
        cases x
        simp only at hxb hxe hexp
        rw [hexp] at hxe
        simp [← hxb, ← hxe]
      rw [hdx]
      refine List.mem_filter.mpr ⟨hx, ?_⟩
      rw [← hdx]
      simpa using hbase
    · push_neg at hex
      have h0 : u.expOf d.base = 0 := listExp_of_not_mem hex
      rw [hexp] at h0
      exact absurd h0 hez

lemma canonical_ext {u v : Unit} (hu : u.Canonical) (hv : v.Canonical)
    (hune : u.dims ≠ []) (hvne : v.dims ≠ [])
    (he : ∀ b, b ≠ FBase.dimensionless → u.expOf b = v.expOf b) : u = v := by
  have hmemiff : ∀ d, d ∈ u.dims.filter (fun x => x.base ≠ FBase.dimensionless)
      ↔ d ∈ v.dims.filter (fun x => x.base ≠ FBase.dimensionless) := by
    intro d
    rw [realDims_mem_iff hu, realDims_mem_iff hv]
    constructor
    · rintro ⟨h1, h2, h3⟩
      exact ⟨h1, h2, by rw [← he d.base h1]; exact h3⟩
    · rintro ⟨h1, h2, h3⟩
      exact ⟨h1, h2, by rw [he d.base h1]; exact h3⟩
  have hndu : (u.dims.filter (fun x => x.base ≠ FBase.dimensionless)).Nodup :=
    (List.Nodup.of_map _ hu.nodup_bases).filter _
  have hndv : (v.dims.filter (fun x => x.base ≠ FBase.dimensionless)).Nodup :=
    (List.Nodup.of_map _ hv.nodup_bases).filter _
  have hperm : List.Perm (u.dims.filter (fun x => x.base ≠ FBase.dimensionless))
      (v.dims.filter (fun x => x.base ≠ FBase.dimensionless)) :=
    (List.perm_ext_iff_of_nodup hndu hndv).mpr hmemiff
  have hfeq : u.dims.filter (fun x => x.base ≠ FBase.dimensionless)
      = v.dims.filter (fun x => x.base ≠ FBase.dimensionless) :=
    List.eq_of_perm_of_sorted hperm (hu.2.1.filter _) (hv.2.1.filter _)
  have hlist : u.dims = v.dims := by
    by_cases hcase : u.dims.filter (fun x => x.base ≠ FBase.dimensionless) = []
    · have hud : u.dims = [Dimension.dimensionlessDim] := by
        obtain ⟨d, hd⟩ := List.exists_mem_of_ne_nil u.dims hune
        have hdb : d.base = FBase.dimensionless := by
          have := List.filter_eq_nil_iff.mp hcase d hd
          simpa using this
        have hdd : d = Dimension.dimensionlessDim := by
          cases d
          simp only at hdb
          rw [Dimension.dimensionlessDim, ← (hu.1 _ hd).2.1 hdb, hdb]
        rw [hdd] at hd
        exact hu.2.2 hd
      have hvd : v.dims = [Dimension.dimensionlessDim] := by
        have hcase' : v.dims.filter (fun x => x.base ≠ FBase.dimensionless) = [] := by
          rw [← hfeq]
          exact hcase
        obtain ⟨d, hd⟩ := List.exists_mem_of_ne_nil v.dims hvne
        have hdb : d.base = FBase.dimensionless := by
          have := List.filter_eq_nil_iff.mp hcase' d hd
          simpa using this
        have hdd : d = Dimension.dimensionlessDim := by
          cases d
          simp only at hdb
          rw [Dimension.dimensionlessDim, ← (hv.1 _ hd).2.1 hdb, hdb]
        rw [hdd] at hd
        exact hv.2.2 hd
      rw [hud, hvd]
    · have hnomem_u : Dimension.dimensionlessDim ∉ u.dims := by
        intro hmem
        have hall := hu.2.2 hmem
        rw [hall] at hcase
        exact hcase (by rfl)
      have hfu : u.dims.filter (fun x => x.base ≠ FBase.dimensionless) = u.dims := by
        rw [List.filter_eq_self]
        intro d hd
        have hdb : d.base ≠ FBase.dimensionless := by
          intro hb
          apply hnomem_u
          have hdd : d = Dimension.dimensionlessDim := by
            cases d
            simp only at hb
            rw [Dimension.dimensionlessDim, ← (hu.1 _ hd).2.1 hb, hb]
          rw [← hdd]
          exact hd
        simpa using hdb
      have hnomem_v : Dimension.dimensionlessDim ∉ v.dims := by
        intro hmem
        have hall := hv.2.2 hmem
        have hcase' : v.dims.filter (fun x => x.base ≠ FBase.dimensionless) ≠ [] := by
          rw [← hfeq]
          exact hcase
        rw [hall] at hcase'
        exact hcase' (by rfl)
      have hfv : v.dims.filter (fun x => x.base ≠ FBase.dimensionless) = v.dims := by
        rw [List.filter_eq_self]
        intro d hd
        have hdb : d.base ≠ FBase.dimensionless := by
          intro hb
          apply hnomem_v
          have hdd : d = Dimension.dimensionlessDim := by
            cases d
            simp only at hb
            rw [Dimension.dimensionlessDim, ← (hv.1 _ hd).2.1 hb, hb]
          rw [← hdd]
          exact hd
        simpa using hdb
      rw [← hfu, ← hfv]
      exact hfeq
  cases u
  cases v
  simpa using hlist

lemma Unit.eqb_refl (u : Unit) : u.eqb u = true := by
  unfold Unit.eqb
  simp

lemma scaleVal_zero (v : PyValue) : scaleVal v 0 = v := by
  unfold scaleVal
  simp

lemma create_numeric {v : PyValue} (hv : v.isNumeric = true) (u : Unit) :
    Factory.create v u 0 = .ok ⟨v, u⟩ := by
  cases v <;> simp [PyValue.isNumeric] at hv <;> simp [Factory.create, scaleVal_zero]

lemma pyAdd_isSome {v w : PyValue} (hv : v.isNumeric = true) (hw : w.isNumeric = true) :
    ∃ x, pyAdd v w = some x ∧ x.isNumeric = true := by
  cases v <;> simp [PyValue.isNumeric] at hv <;>
    cases w <;> simp [PyValue.isNumeric] at hw <;>
      simp [pyAdd, PyValue.isNumeric]

lemma pySub_isSome {v w : PyValue} (hv : v.isNumeric = true) (hw : w.isNumeric = true) :
    ∃ x, pySub v w = some x ∧ x.isNumeric = true := by
  cases v <;> simp [PyValue.isNumeric] at hv <;>
    cases w <;> simp [PyValue.isNumeric] at hw <;>
      simp [pySub, PyValue.isNumeric]

lemma sortDims_eq_of_perm_nodup {f1 f2 : List Dimension} (hperm : List.Perm f1 f2)
    (hn : (f2.map Dimension.base).Nodup) : sortDims f1 = sortDims f2 := by
  have hp : List.Perm (sortDims f1) (sortDims f2) :=
    ((sortDims_perm f1).trans hperm).trans (sortDims_perm f2).symm
  have hn2 : ((sortDims f2).map Dimension.base).Nodup :=
    ((sortDims_perm f2).map _).nodup_iff.mpr hn
  have hn1 : ((sortDims f1).map Dimension.base).Nodup := (hp.map _).nodup_iff.mpr hn2
  exact List.eq_of_perm_of_sorted hp
    (pairwise_lt_of_sorted_nodup (sortDims_sorted f1) hn1)
    (pairwise_lt_of_sorted_nodup (sortDims_sorted f2) hn2)

lemma construct_ok_general {b : FBase} {m : Int} (hle : |m| ≤ MAX_EXPONENT) :
    Dimension.construct b (.int m)
      = .ok (if m = 0 ∨ b = FBase.dimensionless then Dimension.dimensionlessDim
        else ⟨b, m⟩) := by
  have h1 : Dimension.construct b (.int m)
      = if MAX_EXPONENT < |m| then Except.error PyErr.exponentLimit
        else if m = 0 then Except.ok ⟨FBase.dimensionless, 1⟩
        else if b = FBase.dimensionless then Except.ok ⟨FBase.dimensionless, 1⟩
        else Except.ok ⟨b, m⟩ := rfl
  rw [h1, if_neg (not_lt.mpr hle)]
  by_cases hm : m = 0
  · simp [hm, Dimension.dimensionlessDim]
  · by_cases hb : b = FBase.dimensionless <;> simp [hm, hb, Dimension.dimensionlessDim]

lemma listExp_map_pow (n : Int) {l : List Dimension} {b : FBase} (hb : b ≠ FBase.dimensionless) :
    listExp (l.map (fun d => if d.exponent * n = 0 ∨ d.base = FBase.dimensionless
      then Dimension.dimensionlessDim else ⟨d.base, d.exponent * n⟩)) b
      = listExp l b * n := by
  induction l with
  | nil => simp [listExp]
  | cons d t ih =>
    rw [List.map_cons, listExp_cons, listExp_cons, ih]
    by_cases hcond : d.exponent * n = 0 ∨ d.base = FBase.dimensionless
    · rw [if_pos hcond]
      rw [if_neg (show ¬ Dimension.dimensionlessDim.base = b from fun h => hb h.symm)]
      rcases hcond with h0 | hd
      · by_cases hdb : d.base = b
        · rw [if_pos hdb, add_mul, h0]
        · rw [if_neg hdb]
          ring
      · have hdb : ¬ d.base = b := by
          rw [hd]
          exact fun h => hb h.symm
        rw [if_neg hdb]
        ring
    · rw [if_neg hcond]
      by_cases hdb : d.base = b
      · rw [if_pos (show (⟨d.base, d.exponent * n⟩ : Dimension).base = b from hdb),
          if_pos hdb, add_mul]
      · rw [if_neg (show ¬ (⟨d.base, d.exponent * n⟩ : Dimension).base = b from hdb),
          if_neg hdb]
        ring

lemma pow_map_sublist (n : Int) (l : List Dimension) :
    (((l.map (fun d => if d.exponent * n = 0 ∨ d.base = FBase.dimensionless
        then Dimension.dimensionlessDim else ⟨d.base, d.exponent * n⟩)).filter
      (fun d => d.base ≠ FBase.dimensionless)).map Dimension.base).Sublist
      (l.map Dimension.base) := by
  induction l with
  | nil => simp
  | cons d t ih =>
    rw [List.map_cons, List.filter_cons, List.map_cons]
    by_cases hcond : d.exponent * n = 0 ∨ d.base = FBase.dimensionless
    · rw [if_pos hcond]
      rw [if_neg (by simp [Dimension.dimensionlessDim])]
      exact ih.cons _
    · rw [if_neg hcond]
      have hdb : d.base ≠ FBase.dimensionless := fun h => hcond (Or.inr h)
      rw [if_pos (by simpa using hdb)]
      rw [List.map_cons]
      exact ih.cons₂ _

lemma construct_cons2 (x y : Dimension) (t : List Dimension) :
    Unit.construct (x :: y :: t)
      = if (((x :: y :: t).filter (fun d => d ≠ Dimension.dimensionlessDim)).map
          Dimension.base).Nodup
        then .ok ⟨sortDims ((x :: y :: t).filter (fun d => d ≠ Dimension.dimensionlessDim))⟩
        else .error .duplicateBase := by
  unfold Unit.construct
  have h1 : (x :: y :: t).isEmpty = false := rfl
  have h2 : ¬ ((x :: y :: t).length = 1) := by simp
  simp only [h1, Bool.false_eq_true, if_false, if_neg h2]

/-! The claims. -/

/-- C1: for any two scalar packets, `+` and `-` succeed exactly when the two
units are equal (by `Unit.__eq__`), in which case the result is a fresh
packet carrying the numeric sum (resp. difference) and the shared unit;
when the units differ, both operations raise the dimension-mismatch error
(`ValueError` "Units are not the same" in the code, the spec's
`DimensionMismatch`). -/
theorem claim_C1_add_sub_units (a b : Packet)
    (ha : a.value.isNumeric = true) (hb : b.value.isNumeric = true) :
    (a.unit.eqb b.unit = true →
      (∃ v, pyAdd a.value b.value = some v ∧ add_logic a b = .ok ⟨v, a.unit⟩) ∧
      (∃ w, pySub a.value b.value = some w ∧ sub_logic a b = .ok ⟨w, a.unit⟩)) ∧
    (a.unit.eqb b.unit = false →
      add_logic a b = .error .dimensionMismatch ∧
      sub_logic a b = .error .dimensionMismatch) := by
  constructor
  · intro hu
    have hchk : a.unit_check b = .ok ⟨⟩ := by
      unfold Packet.unit_check
      rw [if_pos hu]
    obtain ⟨v, hv, hvn⟩ := pyAdd_isSome ha hb
    obtain ⟨w, hw, hwn⟩ := pySub_isSome ha hb
    refine ⟨⟨v, hv, ?_⟩, ⟨w, hw, ?_⟩⟩
    · unfold add_logic
      rw [hchk, hv]
      exact create_numeric hvn a.unit
    · unfold sub_logic
      rw [hchk, hw]
      exact create_numeric hwn a.unit
  · intro hu
    have hchk : a.unit_check b = .error .dimensionMismatch := by
      unfold Packet.unit_check
      rw [if_neg (by rw [hu]; exact Bool.false_ne_true)]
    constructor
    · unfold add_logic
      rw [hchk]
      rfl
    · unfold sub_logic
      rw [hchk]
      rfl

/-- Witness for C1 at concrete inputs: `10·LENGTH + 5·TIME` raises the
dimension-mismatch error, and `10·LENGTH + 5·LENGTH` returns `15·LENGTH`. -/
theorem claim_C1_witness :
    add_logic ⟨.int 10, LENGTH⟩ ⟨.int 5, TIME⟩ = .error .dimensionMismatch ∧
    add_logic ⟨.int 10, LENGTH⟩ ⟨.int 5, LENGTH⟩ = .ok ⟨.int 15, LENGTH⟩ := by
  constructor
  · exact ((claim_C1_add_sub_units ⟨.int 10, LENGTH⟩ ⟨.int 5, TIME⟩
      (by decide) (by decide)).2 (by decide)).1
  · obtain ⟨⟨v, hv, hadd⟩, -⟩ := (claim_C1_add_sub_units ⟨.int 10, LENGTH⟩ ⟨.int 5, LENGTH⟩
      (by decide) (by decide)).1 (by decide)
    have hv15 : v = .int 15 := by
      rw [show pyAdd (PyValue.int 10) (PyValue.int 5) = some (.int 15) from rfl] at hv
      exact (Option.some.inj hv).symm
    rw [hv15] at hadd
    exact hadd

/-- C2 (code bug): `power_logic` does gate on a dimensionless exponent, but
its zero-exponent branch executes `Factory(1.0, DIMENSIONLESS)` —
instantiating the `Factory` class instead of calling `Factory.create` — so
`q ** 0` raises `TypeError: Factory() takes no arguments` instead of
returning the dimensionless `1.0` packet that the claim (and the code's own
comment "Handles zero exponent rule (x^0 = 1)") promises. -/
theorem claim_C2_power_zero_bug :
    power_logic (fun _ _ => PyValue.float 0) ⟨.float 2, LENGTH⟩ ⟨.float 0, DIMENSIONLESS⟩
      = .error .factoryClassCall ∧
    power_logic (fun _ _ => PyValue.float 0) ⟨.float 2, LENGTH⟩ ⟨.float 3, TIME⟩
      = .error .powBaseNotDimensionless := by
  constructor <;> rfl

/-- C3 (amended): for canonical Units `U1, U2` with `U1` of nonempty
dimension list, and whose per-base exponent sums stay within
`MAX_EXPONENT`, `(U1*U2)/U2` succeeds and returns a Unit equal (indeed
identical) to `U1`. Unrestricted, the claim fails: the intermediate
product re-validates every exponent against `MAX_EXPONENT` (see the
counterexample). -/
theorem claim_C3_roundtrip {u1 u2 : Unit} (h1 : u1.Canonical) (h2 : u2.Canonical)
    (hne : u1.dims ≠ [])
    (hbound : ∀ b, b ≠ FBase.dimensionless → |u1.expOf b + u2.expOf b| ≤ MAX_EXPONENT) :
    ∃ p r : Unit, Unit.mul u1 u2 = .ok p ∧ Unit.div p u2 = .ok r ∧
      r = u1 ∧ r.eqb u1 = true := by
  obtain ⟨p, hpok, hpc, hpne, hpe⟩ := da_char h1 h2 false (by
    intro b hbb
    simpa using hbound b hbb)
  obtain ⟨r, hrok, hrc, hrne, hre⟩ := da_char hpc h2 true (by
    intro b hbb
    have hpeb := hpe b hbb
    simp only [Bool.false_eq_true, if_false] at hpeb
    simp only [if_true]
    have heq : listExp p.dims b + -(listExp u2.dims b) = listExp u1.dims b := by
      rw [show listExp p.dims b = p.expOf b from rfl, hpeb]
      ring
    rw [heq]
    exact h1.expOf_abs_le b)
  have hr1 : r = u1 := by
    refine canonical_ext hrc h1 hrne hne (fun b hbb => ?_)
    have hpeb := hpe b hbb
    have hreb := hre b hbb
    simp only [Bool.false_eq_true, if_false, if_true] at hpeb hreb
    rw [hreb, show listExp p.dims b = p.expOf b from rfl, hpeb]
    show listExp u1.dims b + listExp u2.dims b + -(listExp u2.dims b) = listExp u1.dims b
    ring
  exact ⟨p, r, hpok, hrok, hr1, by rw [hr1]; exact Unit.eqb_refl u1⟩

/-- Witness for C3 at concrete Units `kg` and `m²`. -/
theorem claim_C3_witness :
    ∃ p r : Unit, Unit.mul ⟨[⟨.mass, 1⟩]⟩ ⟨[⟨.length, 2⟩]⟩ = .ok p ∧
      Unit.div p ⟨[⟨.length, 2⟩]⟩ = .ok r ∧
      r = ⟨[⟨.mass, 1⟩]⟩ ∧ r.eqb ⟨[⟨.mass, 1⟩]⟩ = true :=
  @claim_C3_roundtrip ⟨[⟨.mass, 1⟩]⟩ ⟨[⟨.length, 2⟩]⟩
    (by constructor <;> decide) (by constructor <;> decide) (by decide) (by decide)

/-- Counterexample to C3 as stated: for `U1 = U2 = m⁶` (both constructible
Units), `U1 * U2` already raises the exponent-limit `ValueError` because
the merged exponent 12 exceeds `MAX_EXPONENT = 10`, so `(U1*U2)/U2` does
not return `U1`. -/
theorem claim_C3_counterexample :
    Unit.construct [⟨.length, 6⟩] = .ok ⟨[⟨.length, 6⟩]⟩ ∧
    Unit.mul ⟨[⟨.length, 6⟩]⟩ ⟨[⟨.length, 6⟩]⟩ = .error .exponentLimit := by
  constructor <;> decide

/-- C4 (amended): for every base quantity other than `DIMENSIONLESS`, a
`Unit` constructed from a list containing two Dimensions of that base
(whatever their exponents) raises the duplicate-base `ValueError` at
construction time. (For `DIMENSIONLESS`, duplicates are stripped instead —
see the counterexample.) -/
theorem claim_C4_duplicate_base {l : List Dimension} {b : FBase}
    (hbd : b ≠ FBase.dimensionless)
    (hdup : 2 ≤ (l.filter (fun d => d.base = b)).length) :
    Unit.construct l = .error .duplicateBase := by
  have hlen : 2 ≤ l.length := le_trans hdup (List.length_filter_le _ l)
  rcases l with - | ⟨d1, - | ⟨d2, t⟩⟩
  · simp at hlen
  · simp at hlen
  rw [construct_cons2]
  have hsub : (((d1 :: d2 :: t).filter (fun d => d ≠ Dimension.dimensionlessDim)).filter
      (fun d => d.base = b)) = (d1 :: d2 :: t).filter (fun d => d.base = b) := by
    rw [List.filter_filter]
    apply List.filter_congr
    intro d _
    by_cases hdb : d.base = b
    · have hdnd : d ≠ Dimension.dimensionlessDim := by
        intro hdd
        rw [hdd] at hdb
        exact hbd (hdb.symm)
      simp [hdb, hdnd]
    · simp [hdb]
  rw [if_neg ?_]
  intro hnd
  set f := (d1 :: d2 :: t).filter (fun d => d ≠ Dimension.dimensionlessDim) with hf
  have hle1 : (f.filter (fun d => d.base = b)).length ≤ 1 := by
    by_cases hex : ∃ d ∈ f, d.base = b
    · obtain ⟨d, hd, hdb⟩ := hex
      rw [← hdb, filter_base_unique hnd hd]
      simp
    · push_neg at hex
      rw [filter_base_eq_nil hex]
      simp
  rw [hsub] at hle1
  omega

/-- Witness for C4: `Unit(Dimension(MASS,1), Dimension(MASS,2))` raises. -/
theorem claim_C4_witness :
    Unit.construct [⟨.mass, 1⟩, ⟨.mass, 2⟩] = .error .duplicateBase :=
  @claim_C4_duplicate_base [⟨.mass, 1⟩, ⟨.mass, 2⟩] .mass (by decide) (by decide)

/-- Counterexample to C4 as stated ("for every base quantity"): two
Dimensions sharing the `DIMENSIONLESS` base never raise — they are both
stripped by `_remove_dimensionless` and the construction succeeds (with an
empty dimension list). -/
theorem claim_C4_counterexample :
    Unit.construct [Dimension.dimensionlessDim, Dimension.dimensionlessDim] = .ok ⟨[]⟩ := by
  decide

/-- C5: `Unit` construction is order-independent: permuting the argument
list leaves the outcome (the constructed Unit, or the raised error)
unchanged, and in particular two Units built from permuted argument lists
are `==`-equal and have equal hashes. -/
theorem claim_C5_order_independence {l1 l2 : List Dimension} (hp : List.Perm l1 l2) :
    Unit.construct l1 = Unit.construct l2 ∧
    (∀ u1 u2 : Unit, Unit.construct l1 = .ok u1 → Unit.construct l2 = .ok u2 →
      u1.eqb u2 = true ∧ u1.hashKey = u2.hashKey) := by
  have hmain : Unit.construct l1 = Unit.construct l2 := by
    rcases l1 with - | ⟨a1, - | ⟨a2, t1⟩⟩
    · rw [hp.symm.eq_nil]
    · rw [(List.perm_singleton.mp hp.symm)]
    · have hlen := hp.length_eq
      rcases l2 with - | ⟨b1, - | ⟨b2, t2⟩⟩
      · simp at hlen
      · simp at hlen
      · rw [construct_cons2, construct_cons2]
        have hfp : List.Perm
            ((a1 :: a2 :: t1).filter (fun d => d ≠ Dimension.dimensionlessDim))
            ((b1 :: b2 :: t2).filter (fun d => d ≠ Dimension.dimensionlessDim)) :=
          hp.filter _
        have hniff := (hfp.map Dimension.base).nodup_iff
        by_cases hn2 : (((b1 :: b2 :: t2).filter
            (fun d => d ≠ Dimension.dimensionlessDim)).map Dimension.base).Nodup
        · rw [if_pos (hniff.mpr hn2), if_pos hn2]
          exact congrArg (fun x => Except.ok (Unit.mk x))
            (sortDims_eq_of_perm_nodup hfp hn2)
        · rw [if_neg (fun h => hn2 (hniff.mp h)), if_neg hn2]
  refine ⟨hmain, fun u1 u2 h1 h2 => ?_⟩
  rw [hmain, h2] at h1
  injection h1 with h
  rw [← h]
  exact ⟨Unit.eqb_refl u2, rfl⟩

/-- Witness for C5: `Unit(A, B)` and `Unit(B, A)` for `A = kg`, `B = m²`. -/
theorem claim_C5_witness :
    Unit.construct [⟨.mass, 1⟩, ⟨.length, 2⟩] = Unit.construct [⟨.length, 2⟩, ⟨.mass, 1⟩] ∧
    (∀ u1 u2 : Unit, Unit.construct [⟨.mass, 1⟩, ⟨.length, 2⟩] = .ok u1 →
      Unit.construct [⟨.length, 2⟩, ⟨.mass, 1⟩] = .ok u2 →
      u1.eqb u2 = true ∧ u1.hashKey = u2.hashKey) :=
  claim_C5_order_independence (by decide)

/-- C6 (amended): `Factory.create` dispatches on the runtime type of the
payload — `int`/`float` build a `RealPacket`, `complex` builds a
`ComplexPacket`, and every other payload type (sequences included — there
is no `ArrayPacket` branch, and no `UnsupportedValueType` class exists)
raises `TypeError` "No Packet for this value type". -/
theorem claim_C6_factory_dispatch (u : Unit) (pfx : Int) :
    (∀ n : Int, ∃ q, Factory.create (.int n) u pfx = .ok q ∧
      q.isRealPacket = true ∧ q.unit = u) ∧
    (∀ x : ℚ, ∃ q, Factory.create (.float x) u pfx = .ok q ∧
      q.isRealPacket = true ∧ q.unit = u) ∧
    (∀ re im : ℚ, ∃ q, Factory.create (.complex re im) u pfx = .ok q ∧
      q.isComplexPacket = true ∧ q.unit = u) ∧
    (∀ xs : List ℚ, Factory.create (.list xs) u pfx = .error .noPacketForType) ∧
    (∀ str : String, Factory.create (.str str) u pfx = .error .noPacketForType) ∧
    Factory.create .none u pfx = .error .noPacketForType := by
  refine ⟨fun n => ⟨⟨scaleVal (.int n) pfx, u⟩, rfl, ?_, rfl⟩,
    fun x => ⟨⟨scaleVal (.float x) pfx, u⟩, rfl, ?_, rfl⟩,
    fun re im => ⟨⟨scaleVal (.complex re im) pfx, u⟩, rfl, ?_, rfl⟩,
    fun xs => rfl, fun str => rfl, rfl⟩
  · unfold scaleVal
    by_cases h0 : pfx = 0
    · simp [h0, Packet.isRealPacket]
    · by_cases hpos : 0 ≤ pfx <;> simp [h0, hpos, Packet.isRealPacket]
  · unfold scaleVal
    by_cases h0 : pfx = 0 <;> simp [h0, Packet.isRealPacket]
  · unfold scaleVal
    by_cases h0 : pfx = 0 <;> simp [h0, Packet.isComplexPacket]

/-- Counterexample to C6 as stated: a sequence payload does not build an
`ArrayPacket`; `Factory.create` has no sequence branch, so a list falls
into the default arm and raises `TypeError` "No Packet for this value
type". -/
theorem claim_C6_counterexample :
    Factory.create (.list [1, 2, 3]) LENGTH 0 = .error .noPacketForType := rfl

/-- C7 (code bug): every real-scalar transcendental function first runs
`_valid_input_for_transcendental`, which evaluates `Unit.dimensionless()`;
the `Unit` class of `core/unit.py` defines no such attribute, so every
call — dimensionless or not, in-domain or not — raises `AttributeError`
before any unit gate or domain check can run, contradicting the claim that
in-domain dimensionless operands return the function's value. -/
theorem claim_C7_transcendental_attribute_bug (f : ℚ → ℚ) (q : Packet) :
    sin_logic f q = .error .attributeError ∧
    asin_logic f q = .error .attributeError ∧
    nlog_logic f q = .error .attributeError ∧
    acot_logic f q = .error .attributeError :=
  ⟨rfl, rfl, rfl, rfl⟩

/-- C8 (amended): `Unit.__pow__` with an `int` exponent `n` (within the
`MAX_EXPONENT` budget for every scaled exponent) returns the Unit whose
per-base exponents are multiplied exactly by `n` (never rounded; bases
whose scaled exponent is 0 collapse away); a `float` exponent is never
rounded to the nearest integer — it propagates into
`Dimension.__post_init__`, which raises `TypeError` because exponents must
be `int`s. -/
theorem claim_C8_unit_pow {u : Unit} (hc : u.Canonical) (n : Int)
    (hbound : ∀ d ∈ u.dims, |d.exponent * n| ≤ MAX_EXPONENT) :
    (∃ r : Unit, u.powU (.int n) = .ok r ∧ r.Canonical ∧
      (∀ b, b ≠ FBase.dimensionless → r.expOf b = u.expOf b * n)) ∧
    (u.dims ≠ [] → ∀ x : ℚ, u.powU (.float x) = .error .dimExponentTypeError) := by
  constructor
  · have hbuild : buildList
        (fun d => Dimension.construct d.base (mulExp d.exponent (.int n))) u.dims
        = .ok (u.dims.map (fun d => if d.exponent * n = 0 ∨ d.base = FBase.dimensionless
            then Dimension.dimensionlessDim else ⟨d.base, d.exponent * n⟩)) :=
      buildList_ok (fun d hd => construct_ok_general (hbound d hd))
    have hv' : ∀ d' ∈ u.dims.map (fun d =>
        if d.exponent * n = 0 ∨ d.base = FBase.dimensionless
          then Dimension.dimensionlessDim else ⟨d.base, d.exponent * n⟩), d'.Valid := by
      intro d' hd'
      obtain ⟨d, hd, rfl⟩ := List.mem_map.mp hd'
      by_cases hcond : d.exponent * n = 0 ∨ d.base = FBase.dimensionless
      · rw [if_pos hcond]
        exact dimensionlessDim_valid
      · push_neg at hcond
        rw [if_neg (by push_neg; exact hcond)]
        exact ⟨hbound d hd, fun h => absurd h hcond.2, fun _ => hcond.1⟩
    have hnd' := ((pow_map_sublist n u.dims).nodup) hc.nodup_bases
    obtain ⟨r, hok, hcanon, hexp, -⟩ := construct_char hv' hnd'
    refine ⟨r, ?_, hcanon, fun b hbb => ?_⟩
    · unfold Unit.powU
      rw [hbuild]
      exact hok
    · rw [hexp b hbb, listExp_map_pow n hbb]
      rfl
  · intro hne x
    cases hdims : u.dims with
    | nil => exact absurd hdims hne
    | cons d t =>
      unfold Unit.powU
      rw [hdims]
      rfl

/-- Witness for C8 at the concrete Unit `m²` and exponent 3: the result is
`m⁶` with exponents scaled exactly, and `m² ** 0.5` raises. -/
theorem claim_C8_witness :
    (∃ r : Unit, Unit.powU ⟨[⟨.length, 2⟩]⟩ (.int 3) = .ok r ∧ r.Canonical ∧
      (∀ b, b ≠ FBase.dimensionless →
        r.expOf b = (⟨[⟨.length, 2⟩]⟩ : Unit).expOf b * 3)) ∧
    ((⟨[⟨.length, 2⟩]⟩ : Unit).dims ≠ [] → ∀ x : ℚ,
      Unit.powU ⟨[⟨.length, 2⟩]⟩ (.float x) = .error .dimExponentTypeError) :=
  @claim_C8_unit_pow ⟨[⟨.length, 2⟩]⟩ (by constructor <;> decide) 3 (by decide)

/-- Counterexample to C8 as stated ("every numeric exponent n (int or
float) ... rounded to the nearest integer"): `m ** 0.5` raises `TypeError`
instead of returning a Unit with a rounded exponent. -/
theorem claim_C8_counterexample :
    Unit.powU LENGTH (.float (1 / 2)) = .error .dimExponentTypeError := rfl

/-- C9: every ordering comparison on a `ComplexPacket` or a `VectorPacket`
— whatever the operand — raises the unorderable error (`TypeError`
"Cannot order complex/vector quantities", the spec's `UnorderableError`):
the four comparison dunders discard the operand and raise unconditionally. -/
theorem claim_C9_ordering_unorderable (α : Type) (q : Packet) (o : α) :
    ComplexPacket.lt q o = .error .complexUnorderable ∧
    ComplexPacket.le q o = .error .complexUnorderable ∧
    ComplexPacket.gt q o = .error .complexUnorderable ∧
    ComplexPacket.ge q o = .error .complexUnorderable ∧
    VectorPacket.lt q o = .error .vectorUnorderable ∧
    VectorPacket.le q o = .error .vectorUnorderable ∧
    VectorPacket.gt q o = .error .vectorUnorderable ∧
    VectorPacket.ge q o = .error .vectorUnorderable :=
  ⟨rfl, rfl, rfl, rfl, rfl, rfl, rfl, rfl⟩

/-- C10: constructing a Unit from `n ≥ 2` copies of the dimensionless
Dimension raises no error — the dimensionless members are stripped before
the duplicate-base check — and yields the degenerate Unit with an empty
dimension list (length 0, empty name), which `Unit.__eq__` distinguishes
from the dimensionless `Unit()` because their lengths differ. -/
theorem claim_C10_stripped_dimensionless (n : ℕ) (hn : 2 ≤ n) :
    Unit.construct (List.replicate n Dimension.dimensionlessDim) = .ok ⟨[]⟩ ∧
    (⟨[]⟩ : Unit).length = 0 ∧
    (⟨[]⟩ : Unit).name = "" ∧
    Unit.construct [] = .ok DIMENSIONLESS ∧
    (⟨[]⟩ : Unit).eqb DIMENSIONLESS = false := by
  obtain ⟨m, rfl⟩ : ∃ m, n = m + 2 := ⟨n - 2, by omega⟩
  refine ⟨?_, rfl, rfl, by decide, by decide⟩
  have hrep : List.replicate (m + 2) Dimension.dimensionlessDim
      = Dimension.dimensionlessDim :: Dimension.dimensionlessDim ::
        List.replicate m Dimension.dimensionlessDim := by
    rw [List.replicate_succ, List.replicate_succ]
  rw [hrep, construct_cons2]
  have hfil : (Dimension.dimensionlessDim :: Dimension.dimensionlessDim ::
      List.replicate m Dimension.dimensionlessDim).filter
      (fun d => d ≠ Dimension.dimensionlessDim) = [] := by
    rw [List.filter_eq_nil_iff]
    intro d hd
    have : d = Dimension.dimensionlessDim := by
      rcases List.mem_cons.mp hd with h | hd2
      · exact h
      rcases List.mem_cons.mp hd2 with h | hd3
      · exact h
      · exact (List.mem_replicate.mp hd3).2
    simp [this]
  rw [hfil]
  simp [sortDims]

/-- Witness for C10 at `n = 2`. -/
theorem claim_C10_witness :
    Unit.construct (List.replicate 2 Dimension.dimensionlessDim) = .ok ⟨[]⟩ ∧
    (⟨[]⟩ : Unit).length = 0 ∧
    (⟨[]⟩ : Unit).name = "" ∧
    Unit.construct [] = .ok DIMENSIONLESS ∧
    (⟨[]⟩ : Unit).eqb DIMENSIONLESS = false :=
  claim_C10_stripped_dimensionless 2 (by decide)

end PicoUnits
